import Mathlib

/-!
Verification of the plugin-specifier resolution and installation pipeline of
`scripts/install-oxlint-plugins.mjs`.

Strings of the JavaScript source are modelled as `List Char` (`JStr`), JavaScript
values produced by `JSON.parse` as the inductive `JVal`, the filesystem and host
functions (`fs.existsSync`/`readFileSync` + comment stripping + `JSON.parse`,
`path.resolve`, `path.join`) as an explicit environment `Env`, and subprocess
results of `child_process.spawnSync` as oracles in a `World` record.  All
definitions follow the JavaScript source line by line; JS `Set<string>` objects
are modelled as insertion-ordered duplicate-free lists.
-/

namespace Oxci

/-- JavaScript strings, modelled as lists of characters. -/
abbrev JStr := List Char

/-- Conversion from Lean string literals to the `List Char` model. -/
def toL (s : String) : JStr := s.data

/-- JS `\w` plus dash: the character class `[\w_-]` / `[A-Za-z0-9_-]` used by all
the allowlist regexes of the source (JS `\w` without the `u` flag is ASCII). -/
def wordDash (c : Char) : Bool := c.isAlpha || c.isDigit || c == '_' || c == '-'

/-- JS `\w`: ASCII letters, digits and underscore (used by the `\b` boundary of
the `skip` test). -/
def wordChar (c : Char) : Bool := c.isAlpha || c.isDigit || c == '_'

/-- Anchored literal-prefix test on the character-list model
(`String.prototype.startsWith`, and anchored literal regex parts). -/
def startsWithL : JStr → JStr → Bool
  | [], _ => true
  | _ :: _, [] => false
  | p :: ps, c :: cs => p == c && startsWithL ps cs

/-- Substring occurrence test, modelling an unanchored literal regex such as
`/workspace:/.test(s)`. -/
def hasSub (needle : JStr) : JStr → Bool
  | [] => decide (needle = [])
  | c :: rest => startsWithL needle (c :: rest) || hasSub needle rest

/-- Case-insensitive substring test, modelling a literal regex with the `i`
flag (ASCII case folding). -/
def hasSubCI (needle hay : JStr) : Bool :=
  hasSub (needle.map Char.toLower) (hay.map Char.toLower)

/-- JS `String.prototype.trim`: remove leading and trailing whitespace. -/
def trimL (s : JStr) : JStr :=
  ((s.dropWhile Char.isWhitespace).reverse.dropWhile Char.isWhitespace).reverse

/-- First-occurrence-preserving deduplication with an accumulator of already
seen elements: the observable behaviour of filling a JS `Set` and converting it
back with `Array.from`. -/
def dedupeFirstAux [DecidableEq α] (seen : List α) : List α → List α
  | [] => []
  | x :: xs => if x ∈ seen then dedupeFirstAux seen xs else x :: dedupeFirstAux (x :: seen) xs

/-- `Array.from(new Set(l))`: first occurrences, in order. -/
def dedupeFirst [DecidableEq α] (l : List α) : List α := dedupeFirstAux [] l

/-- JS `Set<string>` model: insertion-ordered list without duplicates. -/
abbrev JSet := List JStr

/-- `set.add(s)` on a JS `Set`. -/
def jsAdd (set : JSet) (s : JStr) : JSet := if s ∈ set then set else set ++ [s]

/-- Values a `JSON.parse` call can produce. -/
inductive JVal where
  | jnull : JVal
  | jbool (b : Bool) : JVal
  | jnum (n : Int) : JVal
  | jstr (s : JStr) : JVal
  | jarr (l : List JVal) : JVal
  | jobj (fields : List (JStr × JVal)) : JVal

/-- JS truthiness of a parsed JSON value (`null`, `false`, `0` and `""` are
falsy; arrays and objects are always truthy). -/
def truthy : JVal → Bool
  | .jnull => false
  | .jbool b => b
  | .jnum n => decide (n ≠ 0)
  | .jstr s => decide (s ≠ [])
  | .jarr _ => true
  | .jobj _ => true

/-- Property lookup on a parsed JSON object (`obj.key`); with duplicate keys
`JSON.parse` keeps the last occurrence, so the fold keeps the last binding. -/
def jlookup (fields : List (JStr × JVal)) (key : JStr) : Option JVal :=
  fields.foldl (fun acc kv => if kv.1 = key then some kv.2 else acc) none

/-- Entries of the raw `plugins` array handed to `filterInstallable`: either a
JS string or some non-string value (identified by a tag so that JS `Set`
equality can compare them). -/
inductive JSEntry where
  | str (s : JStr) : JSEntry
  | other (id : Nat) : JSEntry
deriving DecidableEq

/-- The `typeof s === "string" ? s.trim() : s` normalisation step of
`filterInstallable`. -/
def trimEntry : JSEntry → JSEntry
  | .str s => .str (trimL s)
  | .other i => .other i

/-- Filesystem-with-parser environment.  `fsys p = none` models a missing file
(`fs.existsSync` false); `fsys p = some none` a file whose
read/comment-strip/`JSON.parse` sequence throws; `fsys p = some (some v)` a
file parsing to the value `v`.  `resolve` models `path.resolve(process.cwd(), ·)`
and `joinCwd` models `path.join(process.cwd(), ·)`. -/
structure Env where
  fsys : JStr → Option (Option JVal)
  resolve : JStr → JStr
  joinCwd : JStr → JStr

/-- Key `"jsPlugins"`. -/
def jsPluginsKey : JStr := toL "jsPlugins"

/-- Key `"specifier"`. -/
def specifierKey : JStr := toL "specifier"

/-- Key `"name"`. -/
def nameKey : JStr := toL "name"

/-- One iteration of the `for (const it of arr)` loop of `readConfigAndCollect`:
skip falsy entries, add trimmed strings, and for objects add the trimmed
`specifier` string field, else the trimmed `name` string field. -/
def addEntry (set : JSet) (it : JVal) : JSet :=
  if truthy it = false then set
  else
    match it with
    | .jstr s => jsAdd set (trimL s)
    | .jobj f =>
      match jlookup f specifierKey with
      | some (.jstr s) => jsAdd set (trimL s)
      | _ =>
        match jlookup f nameKey with
        | some (.jstr s) => jsAdd set (trimL s)
        | _ => set
    | _ => set

/-- `readConfigAndCollect(configPath, set)`: return the set unchanged when the
file is missing or unparseable; otherwise read `obj.jsPlugins` (an exception
from property access on a parsed `null` is caught, like every parse failure,
leaving the set unchanged; on non-objects the access yields `undefined` and
`Array.isArray` fails) and fold the entry loop over the array. -/
def readConfigAndCollect (env : Env) (configPath : JStr) (set : JSet) : JSet :=
  match env.fsys configPath with
  | none => set
  | some none => set
  | some (some v) =>
    match v with
    | .jobj fields =>
      let arr := match jlookup fields jsPluginsKey with
        | some (.jarr l) => l
        | _ => []
      arr.foldl addEntry set
    | _ => set

/-- The word `skip`. -/
def skipWord : JStr := toL "skip"

/-- Does `skip` occur here with a word boundary on both sides?  `prev` is the
character just before the current position (`none` at the string start). -/
def skipHereB (prev : Option Char) (l : JStr) : Bool :=
  (match prev with | none => true | some c => !wordChar c) &&
  startsWithL skipWord l &&
  (match l.drop 4 with | [] => true | c :: _ => !wordChar c)

/-- Scan for `/\bskip\b/` carrying the previous character. -/
def hasWordSkipAux (prev : Option Char) : JStr → Bool
  | [] => false
  | c :: rest => skipHereB prev (c :: rest) || hasWordSkipAux (some c) rest

/-- `/\bskip\b/.test(cmd)`. -/
def hasWordSkip (cmd : JStr) : Bool := hasWordSkipAux none cmd

/-- Characters allowed in a flag argument: the class `[^\s'"]`. -/
def tokChar (c : Char) : Bool := !c.isWhitespace && !(c == '\'') && !(c == '"')

/-- Match `\s+(['"])?([^\s'"]+)\2` directly after a recognised flag, returning
the captured argument and the remainder after the whole match.  Greedy
whitespace, an optional quote that must be closed by the same character, and a
maximal nonempty run of argument characters (regex backtracking can never
rescue a failed attempt here because the argument class excludes whitespace and
both quotes, as the run is maximal). -/
def matchArg (l : JStr) : Option (JStr × JStr) :=
  let ws := l.takeWhile Char.isWhitespace
  let r1 := l.dropWhile Char.isWhitespace
  if ws = [] then none
  else
    match r1 with
    | [] => none
    | c :: r2 =>
      if c = '\'' || c = '"' then
        let tok := r2.takeWhile tokChar
        let r3 := r2.dropWhile tokChar
        if tok = [] then none
        else
          match r3 with
          | d :: r4 => if d = c then some (tok, r4) else none
          | [] => none
      else
        let tok := r1.takeWhile tokChar
        let r3 := r1.dropWhile tokChar
        if tok = [] then none else some (tok, r3)

/-- Attempt the pattern `((?:^|\s)FLAG)\s+(['"])?([^\s'"]+)\2` at the current
position: the `^` alternative only at the very start, else a whitespace
character followed by the flag literal. -/
def tryMatchAt (flag : JStr) (atStart : Bool) (l : JStr) : Option (JStr × JStr) :=
  if atStart && startsWithL flag l then matchArg (l.drop flag.length)
  else
    match l with
    | c :: rest =>
      if c.isWhitespace && startsWithL flag rest then matchArg (rest.drop flag.length)
      else none
    | [] => none

/-- `re.exec` loop of a global regex: try the pattern at each position, resume
after the end of each match.  Fuel bounds the recursion; `length + 1` steps
always suffice since every step consumes at least one character. -/
def scanFlagAux (flag : JStr) : Nat → Bool → JStr → List JStr
  | 0, _, _ => []
  | fuel + 1, atStart, l =>
    match tryMatchAt flag atStart l with
    | some (tok, rest) => tok :: scanFlagAux flag fuel false rest
    | none =>
      match l with
      | [] => []
      | _ :: r => scanFlagAux flag fuel false r

/-- All arguments captured by one of the two flag patterns over the command. -/
def scanFlag (flag : JStr) (cmd : JStr) : List JStr :=
  scanFlagAux flag (cmd.length + 1) true cmd

/-- Flag literal `-c`. -/
def flagC : JStr := toL "-c"

/-- Flag literal `--config`. -/
def flagConfig : JStr := toL "--config"

/-- `collectFromCommand(cmd, set)`: nothing for an empty (falsy) command or one
containing the standalone word `skip`; otherwise resolve and read every `-c`
argument, then every `--config` argument. -/
def collectFromCommand (env : Env) (cmd : JStr) (set : JSet) : JSet :=
  if cmd = [] then set
  else if hasWordSkip cmd then set
  else
    let set1 := (scanFlag flagC cmd).foldl
      (fun st rawPath => readConfigAndCollect env (env.resolve rawPath) st) set
    (scanFlag flagConfig cmd).foldl
      (fun st rawPath => readConfigAndCollect env (env.resolve rawPath) st) set1

/-- `DEFAULT_CONFIG_FILES`. -/
def DEFAULT_CONFIG_FILES : List JStr := [toL ".oxlintrc.json"]

/-- The `for (const f of DEFAULT_CONFIG_FILES)` loop: read the first existing
default file and stop. -/
def defaultLoop (env : Env) : List JStr → JSet → JSet
  | [], set => set
  | f :: rest, set =>
    let p := env.joinCwd f
    if (env.fsys p).isSome then readConfigAndCollect env p set
    else defaultLoop env rest set

/-- `collectDefaultIfEmpty(set)`. -/
def collectDefaultIfEmpty (env : Env) (set : JSet) : JSet :=
  if set.length > 0 then set else defaultLoop env DEFAULT_CONFIG_FILES set

/-- The fixed auxiliary runtime-support package `@oxlint/plugins`. -/
def oxPkgL : JStr := toL "@oxlint/plugins"

/-- Does a specifier start with `./` or `../` (a relative path)? -/
def isRelPath (s : JStr) : Bool :=
  startsWithL (toL "./") s || startsWithL (toL "../") s

/-- `collectFromLocalPlugins(rawSet, installSet)` as called from `main` with the
same set for both arguments: if any member is a relative path, add
`@oxlint/plugins` (the source loop returns right after the first hit, so at
most one add happens). -/
def collectFromLocalPlugins (set : JSet) : JSet :=
  if set.any isRelPath then jsAdd set oxPkgL else set

/-- The literal `eslint-plugin-`. -/
def eslintPre : JStr := toL "eslint-plugin-"

/-- The literal `/eslint-plugin`. -/
def scopedPre : JStr := toL "/eslint-plugin"

/-- `/^eslint-plugin-([\w_-]+)$/.test(s)`. -/
def matchEslintPluginL (s : JStr) : Bool :=
  startsWithL eslintPre s &&
  decide (s.drop eslintPre.length ≠ []) &&
  (s.drop eslintPre.length).all wordDash

/-- The optional `(-[\w_-]+)?$` tail after `/eslint-plugin`: empty, or a dash
followed by a nonempty run of `[\w_-]` characters. -/
def pluginTail : JStr → Bool
  | [] => true
  | c :: name => c == '-' && decide (name ≠ []) && name.all wordDash

/-- `/^@[\w_-]+\/eslint-plugin(-[\w_-]+)?$/.test(s)`: an `@`, a maximal
nonempty scope of `[\w_-]` characters (the class excludes `/`, so greediness is
unambiguous), the literal `/eslint-plugin`, then the optional dashed name. -/
def matchScopedL : JStr → Bool
  | [] => false
  | c :: rest =>
    c == '@' &&
    (let scope := rest.takeWhile wordDash
     let r2 := rest.dropWhile wordDash
     decide (scope ≠ []) && startsWithL scopedPre r2 && pluginTail (r2.drop scopedPre.length))

/-- Does the specifier contain a space (`s.includes(" ")`)? -/
def hasSpaceL (s : JStr) : Bool := s.any (· == ' ')

/-- Does the specifier start with `./`, `../` or `/`? -/
def pathLike (s : JStr) : Bool :=
  startsWithL (toL "./") s || startsWithL (toL "../") s || startsWithL (toL "/") s

/-- The filter predicate of `filterInstallable`, in source order: reject
non-strings, strings containing a space, and path-like strings; accept the two
regex shapes and the literal `@oxlint/plugins`. -/
def installableB : JSEntry → Bool
  | .other _ => false
  | .str s =>
    if hasSpaceL s then false
    else if pathLike s then false
    else if matchEslintPluginL s then true
    else if matchScopedL s then true
    else if s = oxPkgL then true
    else false

/-- `filterInstallable(plugins)`: trim the string entries, deduplicate through
a `Set`, and filter by the allowlist predicate. -/
def filterInstallable (plugins : List JSEntry) : List JSEntry :=
  (dedupeFirst (plugins.map trimEntry)).filter installableB

/-- `PACKAGE_REGEX.test(s)`: the independent validation regex
`/^(?:eslint-plugin-[A-Za-z0-9_-]+|@[A-Za-z0-9_-]+\/eslint-plugin(?:-[A-Za-z0-9_-]+)?|@oxlint\/plugins)$/`;
its three alternatives denote exactly the same sets of strings as the
corresponding per-shape tests above (`[A-Za-z0-9_-]` is `[\w_-]`). -/
def packageRegexTest (s : JStr) : Bool :=
  matchEslintPluginL s || matchScopedL s || decide (s = oxPkgL)

/-- The plugin-resolution pipeline of `main` up to the install plan:
`collectFromCommand`, `collectDefaultIfEmpty`, `collectFromLocalPlugins`,
`filterInstallable(Array.from(set))`. -/
def resolvePlan (env : Env) (cmd : JStr) : List JSEntry :=
  let s1 := collectFromCommand env cmd []
  let s2 := collectDefaultIfEmpty env s1
  let s3 := collectFromLocalPlugins s2
  filterInstallable (s3.map JSEntry.str)

/-- The tail of the pipeline starting from an already-collected raw set. -/
def finalOf (raw : JSet) : List JSEntry :=
  filterInstallable ((collectFromLocalPlugins raw).map JSEntry.str)

/-! ### The installer (`installPackages` and its helpers) -/

/-- The error object of a failed `spawnSync` launch (`res.error`): an optional
`code` property and a `message`. -/
structure JSError where
  code : Option JStr
  msg : JStr
deriving DecidableEq

/-- Result of a `spawnSync` call.  `err` models `res.error` (present exactly
when the process failed to launch), `status` models `res.status` with `none`
for JS `null`, and `out`/`errOut` model the captured `res.stdout`/`res.stderr`
with `none` for JS `null`. -/
structure SpawnRes where
  err : Option JSError
  status : Option Int
  out : Option JStr
  errOut : Option JStr
deriving DecidableEq

/-- Observable side effects of one `installPackages` run, in order. -/
inductive Effect where
  | spawn (args : List JStr) : Effect
  | mkdtemp : Effect
  | mkdirDest : Effect
  | copyTree : Effect
  | removeTmp : Effect
deriving DecidableEq

/-- Oracles for everything outside the script: the primary `npm install`
result, the per-package `npm view` results, the host `JSON.parse`, the
fallback `npm install` result in the temporary directory, the contents of
`tmpDir/node_modules` produced by it (`none` when that directory does not
exist), whether `fs.cpSync` throws (and with what message), and the files
already present under the target `node_modules` (as an association list from
relative path to content). -/
structure World where
  primary : SpawnRes
  view : JStr → SpawnRes
  parse : JStr → Option JVal
  fallbackRes : SpawnRes
  tmpTree : Option (List (JStr × JStr))
  cpFail : Option JStr
  destFiles : List (JStr × JStr)

/-- Outcome of `installPackages`: normal return, or a thrown error carrying
its message. -/
inductive IPOutcome where
  | ok : IPOutcome
  | err (msg : JStr) : IPOutcome
deriving DecidableEq

/-- The full observable result of one `installPackages` run: the effect trace,
the outcome, and the files under the target `node_modules` afterwards. -/
structure IPResult where
  trace : List Effect
  outcome : IPOutcome
  destAfter : List (JStr × JStr)
deriving DecidableEq

/-- `pkgs.join(', ')`. -/
def joinComma : List JStr → JStr
  | [] => []
  | [x] => x
  | x :: y :: rest => x ++ toL ", " ++ joinComma (y :: rest)

/-- Decimal rendering of a `Nat`. -/
def natToStr (n : Nat) : JStr := Nat.toDigits 10 n

/-- JS template interpolation of `res.status` (an `Int` or `null`). -/
def statusStr : Option Int → JStr
  | none => toL "null"
  | some (.ofNat n) => natToStr n
  | some (.negSucc n) => '-' :: natToStr (n + 1)

/-- Arguments of the primary install: `['install', '--ignore-scripts', ...pkgs]`. -/
def installArgs (pkgs : List JStr) : List JStr :=
  toL "install" :: toL "--ignore-scripts" :: pkgs

/-- Arguments of `npm view <p> peerDependencies --json`. -/
def viewArgs (p : JStr) : List JStr :=
  [toL "view", p, toL "peerDependencies", toL "--json"]

/-- Arguments of the fallback install in the temporary directory. -/
def fallbackArgs (pkgs : List JStr) : List JStr :=
  toL "install" :: toL "--ignore-scripts" :: toL "--no-audit" :: toL "--no-fund" :: pkgs

/-- Is `res.error` a workspace-protocol launch error
(`res.error.code === 'EUNSUPPORTEDPROTOCOL' || /workspace:/.test(res.error.message)`,
where the message is first tested for truthiness)? -/
def workspaceErrB (e : JSError) : Bool :=
  decide (e.code = some (toL "EUNSUPPORTEDPROTOCOL")) ||
  (decide (e.msg ≠ []) && hasSub (toL "workspace:") e.msg)

/-- Does the primary attempt abort immediately (`res.error` present and not a
workspace-protocol error)? -/
def errFatalB (res : SpawnRes) : Bool :=
  match res.err with
  | some e => !workspaceErrB e
  | none => false

/-- The workspace-protocol signature on the captured output:
`/Unsupported URL Type "workspace"/i` or `/workspace:/` or
`/EUNSUPPORTEDPROTOCOL/` on stderr, or `/workspace:/` on stdout. -/
def outputPatternB (res : SpawnRes) : Bool :=
  let se := res.errOut.getD []
  let so := res.out.getD []
  hasSubCI (toL "Unsupported URL Type \"workspace\"") se ||
  hasSub (toL "workspace:") se ||
  hasSub (toL "EUNSUPPORTEDPROTOCOL") se ||
  hasSub (toL "workspace:") so

/-- Does the code take the fallback branch
(`res.status !== 0 && (...output patterns...)`)?  JS `null !== 0` holds. -/
def fallbackCondB (res : SpawnRes) : Bool :=
  decide (res.status ≠ some 0) && outputPatternB res

/-- Names contributed by one parsed `peerDependencies` value: the keys of an
object; `Object.keys` of a parsed array yields the decimal index strings; any
other value (all non-truthy or not of `typeof ... === 'object'`) contributes
nothing.  Keys must be nonempty strings. -/
def peerKeys : JVal → List JStr → List JStr
  | .jobj fields, acc => fields.foldl (fun ps kv => if kv.1 ≠ [] then jsAdd ps kv.1 else ps) acc
  | .jarr l, acc => (List.range l.length).foldl (fun ps i => jsAdd ps (natToStr i)) acc
  | _, acc => acc

/-- One iteration of the `collectPeerDepsSync` loop for package `p`: skip when
`npm view` exits nonzero or produced no stdout, when the trimmed output is
empty or the string `null`, or when `JSON.parse` throws; otherwise add the
object keys. -/
def peerStep (w : World) (acc : List JStr) (p : JStr) : List JStr :=
  let r := w.view p
  if decide (r.status ≠ some 0) || decide (r.out = none) then acc
  else
    let outs := trimL (r.out.getD [])
    if decide (outs = []) || decide (outs = toL "null") then acc
    else
      match w.parse outs with
      | none => acc
      | some v => peerKeys v acc

/-- `collectPeerDepsSync(requestedPkgs)`: fold the per-package step over the
requested packages, yielding `Array.from(peerSet)`. -/
def collectPeerDepsSync (w : World) (pkgs : List JStr) : List JStr :=
  pkgs.foldl (peerStep w) []

/-- `fs.cpSync(tmp, dest, { recursive: true, force: false })`: copy every file
whose path is not already present in the destination (first-writer-wins). -/
def mergeNoOverwrite (dest tmp : List (JStr × JStr)) : List (JStr × JStr) :=
  dest ++ tmp.filter (fun kv => (dest.map Prod.fst).contains kv.1 = false)

/-- Association-list file lookup by path. -/
def lookupJ (k : JStr) : List (JStr × JStr) → Option JStr
  | [] => none
  | kv :: rest => if kv.1 = k then some kv.2 else lookupJ k rest

/-- The tail of the fallback branch after the temporary-directory install was
spawned: abort on a launch error or nonzero exit of the fallback install;
otherwise `mkdirSync(destNodeModules)`, then if `tmpDir/node_modules` exists
copy it over without overwriting (an exception of `cpSync` propagates and
skips the cleanup, which only runs after a completed copy), else just warn;
finally `rmSync(tmpDir)` with its own failure swallowed. -/
def fallbackStage (w : World) : List Effect × IPOutcome × List (JStr × JStr) :=
  match w.fallbackRes.err with
  | some e => ([], .err e.msg, w.destFiles)
  | none =>
    if w.fallbackRes.status ≠ some 0 then
      ([], .err (toL "Fallback npm install failed with code " ++ statusStr w.fallbackRes.status),
        w.destFiles)
    else
      match w.tmpTree with
      | some tmpFiles =>
        match w.cpFail with
        | some m => ([Effect.mkdirDest, Effect.copyTree], .err m, w.destFiles)
        | none =>
          ([Effect.mkdirDest, Effect.copyTree, Effect.removeTmp], .ok,
            mergeNoOverwrite w.destFiles tmpFiles)
      | none => ([Effect.mkdirDest, Effect.removeTmp], .ok, w.destFiles)

/-- The message `Refusing to install invalid or unsafe package names: ...`. -/
def refuseMsg (invalid : List JStr) : JStr :=
  toL "Refusing to install invalid or unsafe package names: " ++ joinComma invalid

/-- `installPackages(pkgs)`: return at once on an empty list; throw (before any
subprocess) when any entry fails `PACKAGE_REGEX`, listing all offenders; spawn
the primary `npm install`; throw a non-workspace launch error; on the
workspace-signature fallback condition run `mkdtempSync`, collect peer
dependencies, spawn the isolated install over the deduplicated union and run
the merge/cleanup stage; otherwise throw on a nonzero primary exit. -/
def installPackages (w : World) (pkgs : List JStr) : IPResult :=
  if pkgs = [] then ⟨[], .ok, w.destFiles⟩
  else if pkgs.filter (fun p => !packageRegexTest p) ≠ [] then
    ⟨[], .err (refuseMsg (pkgs.filter (fun p => !packageRegexTest p))), w.destFiles⟩
  else if errFatalB w.primary then
    ⟨[Effect.spawn (installArgs pkgs)],
      .err (match w.primary.err with | some e => e.msg | none => []), w.destFiles⟩
  else if fallbackCondB w.primary then
    ⟨([Effect.spawn (installArgs pkgs)] ++ [Effect.mkdtemp] ++
        pkgs.map (fun p => Effect.spawn (viewArgs p)) ++
        [Effect.spawn (fallbackArgs (dedupeFirst (pkgs ++ collectPeerDepsSync w pkgs)))]) ++
      (fallbackStage w).1,
      (fallbackStage w).2.1, (fallbackStage w).2.2⟩
  else if w.primary.status ≠ some 0 then
    ⟨[Effect.spawn (installArgs pkgs)],
      .err (toL "npm install failed with code " ++ statusStr w.primary.status), w.destFiles⟩
  else ⟨[Effect.spawn (installArgs pkgs)], .ok, w.destFiles⟩

/-! ### Specification-side definitions

These state, in the spec's own terms, the properties the claims assert, to be
compared with the source-derived definitions above. -/

/-- The allowlist grammar as the spec words it: `eslint-plugin-<name>` with a
nonempty name of word characters and dashes; `@<scope>/eslint-plugin`
optionally followed by `-<name>`, scope and name nonempty and of word
characters and dashes; or the fixed auxiliary package `@oxlint/plugins`. -/
def specGrammar (s : JStr) : Prop :=
  (∃ r, s = eslintPre ++ r ∧ r ≠ [] ∧ r.all wordDash = true) ∨
  (∃ scope t, s = '@' :: (scope ++ scopedPre ++ t) ∧ scope ≠ [] ∧ scope.all wordDash = true ∧
    (t = [] ∨ ∃ name, t = '-' :: name ∧ name ≠ [] ∧ name.all wordDash = true)) ∨
  s = oxPkgL

/-- Per-entry contribution of a `jsPlugins` entry, as the (amended) claim words
it: a truthy (nonempty) string entry contributes its trimmed form; an object
entry contributes its trimmed string `specifier` field, or failing that its
trimmed string `name` field; every other entry shape contributes nothing. -/
def specEntryContribution : JVal → Option JStr
  | .jstr s => if s = [] then none else some (trimL s)
  | .jobj f =>
    match jlookup f specifierKey with
    | some (.jstr s) => some (trimL s)
    | _ =>
      match jlookup f nameKey with
      | some (.jstr s) => some (trimL s)
      | _ => none
  | _ => none

/-- The `jsPlugins` array a filesystem answer exposes: nonempty only when the
file exists, parses, is an object, and carries an array-valued `jsPlugins`
key. -/
def jsPluginsArr : Option (Option JVal) → List JVal
  | some (some (.jobj fields)) =>
    (match jlookup fields jsPluginsKey with
     | some (.jarr l) => l
     | _ => [])
  | _ => []

/-! ### Concrete environments and worlds used by counterexamples and witnesses -/

/-- A config value declaring the single plugin `eslint-plugin-x`. -/
def cfgX : JVal := .jobj [(jsPluginsKey, .jarr [.jstr (toL "eslint-plugin-x")])]

/-- A working directory whose default `.oxlintrc.json` exists and declares
`eslint-plugin-x`; paths resolve to themselves. -/
def env3 : Env where
  fsys := fun p => if p = toL ".oxlintrc.json" then some (some cfgX) else none
  resolve := id
  joinCwd := id

/-- A working directory with no files at all. -/
def envEmpty : Env where
  fsys := fun _ => none
  resolve := id
  joinCwd := id

/-- A working directory in which the file `my config.json` (with a space)
exists and declares `eslint-plugin-x`. -/
def env5 : Env where
  fsys := fun p => if p = toL "my config.json" then some (some cfgX) else none
  resolve := id
  joinCwd := id

/-- A config whose `jsPlugins` array holds exactly the empty-string entry. -/
def cfgEmptyStr : JVal := .jobj [(jsPluginsKey, .jarr [.jstr []])]

/-- A working directory whose `cfg.json` parses to `cfgEmptyStr`. -/
def env8 : Env where
  fsys := fun p => if p = toL "cfg.json" then some (some cfgEmptyStr) else none
  resolve := id
  joinCwd := id

/-- The `jsPlugins` array of `cfgW`: a padded string entry and an object entry
with a `specifier` field. -/
def cfgWarr : List JVal :=
  [.jstr (toL " eslint-plugin-a "), .jobj [(specifierKey, .jstr (toL "eslint-plugin-b"))]]

/-- A config declaring the entries of `cfgWarr`. -/
def cfgW : JVal := .jobj [(jsPluginsKey, .jarr cfgWarr)]

/-- A sample input collection for exercising `filterInstallable`: a whitespace
variant and a plain copy of the same plugin, a non-string entry, and a
relative path. -/
def sampleEntries : List JSEntry :=
  [JSEntry.str (toL " eslint-plugin-x "), JSEntry.str (toL "eslint-plugin-x"),
    JSEntry.other 0, JSEntry.str (toL "./a")]

/-- A working directory whose `cfg.json` parses to `cfgW`. -/
def env8b : Env where
  fsys := fun p => if p = toL "cfg.json" then some (some cfgW) else none
  resolve := id
  joinCwd := id

/-- A successful spawn result with no captured output. -/
def okSpawn : SpawnRes where
  err := none
  status := some 0
  out := none
  errOut := none

/-- A failed spawn result (exit 1) with no captured output. -/
def failSpawn : SpawnRes where
  err := none
  status := some 1
  out := none
  errOut := none

/-- World for claim C6: the primary `npm install` fails to launch with a
workspace-protocol error (`EUNSUPPORTEDPROTOCOL`), so `res.status` is `null`
and no output was captured. -/
def w6 : World where
  primary :=
    { err := some { code := some (toL "EUNSUPPORTEDPROTOCOL"),
                    msg := toL "spawnSync npm EUNSUPPORTEDPROTOCOL" }
      status := none
      out := none
      errOut := none }
  view := fun _ => okSpawn
  parse := fun _ => none
  fallbackRes := okSpawn
  tmpTree := none
  cpFail := none
  destFiles := []

/-- World for claim C7's counterexample: the primary install exits 1 with the
workspace signature on stderr, no peer dependencies are found, the fallback
install succeeds and produces a `node_modules` tree, but the merge copy
throws. -/
def w7 : World where
  primary :=
    { err := none
      status := some 1
      out := none
      errOut := some (toL "npm error Unsupported URL Type \"workspace:\": workspace:*") }
  view := fun _ => failSpawn
  parse := fun _ => none
  fallbackRes := okSpawn
  tmpTree := some [(toL "eslint-plugin-a/index.js", toL "fresh")]
  cpFail := some (toL "EACCES: permission denied")
  destFiles := [(toL "left-pad/index.js", toL "orig")]

/-- Like `w7` but the merge copy succeeds; the destination already holds a
file that the temporary tree would also provide. -/
def w7ok : World where
  primary :=
    { err := none
      status := some 1
      out := none
      errOut := some (toL "npm error Unsupported URL Type \"workspace:\": workspace:*") }
  view := fun _ => failSpawn
  parse := fun _ => none
  fallbackRes := okSpawn
  tmpTree := some [(toL "left-pad/index.js", toL "fresh"), (toL "eslint-plugin-a/index.js", toL "new")]
  cpFail := none
  destFiles := [(toL "left-pad/index.js", toL "orig")]

/-- World for claim C10's witness: the primary install exits 1 with
`EUNSUPPORTEDPROTOCOL` on stderr, and `npm view` reports a `peerDependencies`
object whose single key is `lodash` (which fails the allowlist grammar). -/
def w10 : World where
  primary :=
    { err := none
      status := some 1
      out := none
      errOut := some (toL "npm error code EUNSUPPORTEDPROTOCOL") }
  view := fun _ =>
    { err := none, status := some 0, out := some (toL "PEERJSON"), errOut := none }
  parse := fun s =>
    if s = toL "PEERJSON" then some (.jobj [(toL "lodash", .jstr (toL "*"))]) else none
  fallbackRes := okSpawn
  tmpTree := none
  cpFail := none
  destFiles := []

/-- A world in which every subprocess would succeed; used where the claim
holds for every world. -/
def wAny : World where
  primary := okSpawn
  view := fun _ => okSpawn
  parse := fun _ => none
  fallbackRes := okSpawn
  tmpTree := none
  cpFail := none
  destFiles := []

/-! ### Generic helper lemmas -/

lemma mem_dedupeFirstAux [DecidableEq α] (seen : List α) (l : List α) (x : α) :
    x ∈ dedupeFirstAux seen l ↔ x ∈ l ∧ x ∉ seen := by
  induction l generalizing seen with
  | nil => simp [dedupeFirstAux]
  | cons a as ih =>
    by_cases ha : a ∈ seen
    · simp only [dedupeFirstAux, if_pos ha, ih, List.mem_cons]
      by_cases hxa : x = a
      · subst hxa
        simp [ha]
      · simp [hxa]
    · simp only [dedupeFirstAux, if_neg ha, ih, List.mem_cons]
      by_cases hxa : x = a
      · subst hxa
        simp [ha]
      · simp [hxa]

lemma mem_dedupeFirst [DecidableEq α] (l : List α) (x : α) :
    x ∈ dedupeFirst l ↔ x ∈ l := by
  rw [dedupeFirst, mem_dedupeFirstAux]
  simp

lemma nodup_dedupeFirstAux [DecidableEq α] (seen : List α) (l : List α) :
    (dedupeFirstAux seen l).Nodup := by
  induction l generalizing seen with
  | nil => simp [dedupeFirstAux]
  | cons a as ih =>
    by_cases ha : a ∈ seen
    · rw [dedupeFirstAux, if_pos ha]
      exact ih seen
    · rw [dedupeFirstAux, if_neg ha]
      refine List.Nodup.cons ?_ (ih (a :: seen))
      intro hmem
      exact ((mem_dedupeFirstAux _ _ _).mp hmem).2 (List.mem_cons_self a seen)

lemma dedupeFirstAux_eq_self [DecidableEq α] (seen : List α) (l : List α)
    (hnd : l.Nodup) (h : ∀ x ∈ l, x ∉ seen) : dedupeFirstAux seen l = l := by
  induction l generalizing seen with
  | nil => rfl
  | cons a as ih =>
    rw [dedupeFirstAux, if_neg (h a (List.mem_cons_self a as))]
    congr 1
    refine ih (a :: seen) (List.Nodup.of_cons hnd) ?_
    intro x hx hxs
    rcases List.mem_cons.mp hxs with h1 | h1
    · exact (List.nodup_cons.mp hnd).1 (h1 ▸ hx)
    · exact h x (List.mem_cons_of_mem a hx) h1

lemma dedupeFirst_eq_self [DecidableEq α] (l : List α) (hnd : l.Nodup) :
    dedupeFirst l = l :=
  dedupeFirstAux_eq_self [] l hnd (by simp)

lemma jsAdd_mem (set : JSet) (s x : JStr) : x ∈ jsAdd set s ↔ x ∈ set ∨ x = s := by
  rw [jsAdd]
  by_cases h : s ∈ set
  · rw [if_pos h]
    constructor
    · exact Or.inl
    · rintro (h1 | rfl)
      · exact h1
      · exact h
  · rw [if_neg h]
    simp

lemma lookupJ_append_some (k : JStr) (d t : List (JStr × JStr)) (c : JStr)
    (h : lookupJ k d = some c) : lookupJ k (d ++ t) = some c := by
  induction d with
  | nil => simp [lookupJ] at h
  | cons kv rest ih =>
    rw [List.cons_append, lookupJ]
    rw [lookupJ] at h
    by_cases hk : kv.1 = k
    · rwa [if_pos hk] at h ⊢
    · rw [if_neg hk] at h ⊢
      exact ih h

lemma startsWithL_iff (p s : JStr) : startsWithL p s = true ↔ ∃ t, s = p ++ t := by
  induction p generalizing s with
  | nil =>
    simp [startsWithL]
  | cons a as ih =>
    cases s with
    | nil =>
      simp [startsWithL]
    | cons b bs =>
      rw [startsWithL, Bool.and_eq_true, beq_iff_eq, ih]
      constructor
      · rintro ⟨rfl, t, rfl⟩
        exact ⟨t, rfl⟩
      · rintro ⟨t, h⟩
        rw [List.cons_append] at h
        injection h with h1 h2
        exact ⟨h1.symm, t, h2⟩

lemma startsWithL_append (p t : JStr) : startsWithL p (p ++ t) = true :=
  (startsWithL_iff p (p ++ t)).mpr ⟨t, rfl⟩

lemma takeWhile_append_all (p : Char → Bool) (a b : JStr) (h : ∀ x ∈ a, p x = true) :
    (a ++ b).takeWhile p = a ++ b.takeWhile p := by
  induction a with
  | nil => rfl
  | cons x xs ih =>
    rw [List.cons_append, List.takeWhile_cons, if_pos (h x (List.mem_cons_self x xs)),
      ih (fun y hy => h y (List.mem_cons_of_mem x hy)), List.cons_append]

lemma dropWhile_append_all (p : Char → Bool) (a b : JStr) (h : ∀ x ∈ a, p x = true) :
    (a ++ b).dropWhile p = b.dropWhile p := by
  induction a with
  | nil => rfl
  | cons x xs ih =>
    rw [List.cons_append, List.dropWhile_cons, if_pos (h x (List.mem_cons_self x xs))]
    exact ih (fun y hy => h y (List.mem_cons_of_mem x hy))

lemma dropWhile_eq_self_of (p : Char → Bool) (l : JStr) (h : ∀ c ∈ l, p c = false) :
    l.dropWhile p = l := by
  cases l with
  | nil => rfl
  | cons a as =>
    rw [List.dropWhile_cons, if_neg (by simp [h a (List.mem_cons_self a as)])]

lemma trimL_eq_self (s : JStr) (h : ∀ c ∈ s, c.isWhitespace = false) : trimL s = s := by
  rw [trimL, dropWhile_eq_self_of _ _ h, dropWhile_eq_self_of, List.reverse_reverse]
  intro c hc
  exact h c (List.mem_reverse.mp hc)

lemma ws_char_cases (c : Char) (h : c.isWhitespace = true) :
    c = ' ' ∨ c = '\t' ∨ c = '\r' ∨ c = '\n' := by
  simp [Char.isWhitespace] at h
  tauto

lemma wordDash_not_ws (c : Char) (h : wordDash c = true) : c.isWhitespace = false := by
  cases hw : c.isWhitespace
  · rfl
  · exfalso
    rcases ws_char_cases c hw with rfl | rfl | rfl | rfl <;> exact absurd h (by decide)

/-! ### Grammar lemmas -/

lemma eslintPre_cons : eslintPre = 'e' :: toL "slint-plugin-" := rfl

lemma scopedPre_cons : scopedPre = '/' :: toL "eslint-plugin" := rfl

lemma oxPkgL_cons : oxPkgL = '@' :: toL "oxlint/plugins" := rfl

lemma matchEslint_iff (s : JStr) :
    matchEslintPluginL s = true ↔
      ∃ r, s = eslintPre ++ r ∧ r ≠ [] ∧ r.all wordDash = true := by
  rw [matchEslintPluginL]
  simp only [Bool.and_eq_true, decide_eq_true_eq]
  constructor
  · rintro ⟨⟨h1, h2⟩, h3⟩
    obtain ⟨t, rfl⟩ := (startsWithL_iff _ _).mp h1
    rw [List.drop_left] at h2 h3
    exact ⟨t, rfl, h2, h3⟩
  · rintro ⟨r, rfl, h2, h3⟩
    refine ⟨⟨startsWithL_append _ _, ?_⟩, ?_⟩ <;> rw [List.drop_left] <;> assumption

lemma pluginTail_iff (t : JStr) :
    pluginTail t = true ↔
      t = [] ∨ ∃ name, t = '-' :: name ∧ name ≠ [] ∧ name.all wordDash = true := by
  cases t with
  | nil => simp [pluginTail]
  | cons c rest =>
    simp only [pluginTail, Bool.and_eq_true, decide_eq_true_eq, beq_iff_eq]
    constructor
    · rintro ⟨⟨rfl, h1⟩, h2⟩
      exact Or.inr ⟨rest, rfl, h1, h2⟩
    · rintro (h | ⟨name, heq, h1, h2⟩)
      · exact absurd h (by simp)
      · injection heq with h3 h4
        subst h3
        subst h4
        exact ⟨⟨rfl, h1⟩, h2⟩

lemma matchScoped_iff (s : JStr) :
    matchScopedL s = true ↔
      ∃ scope t, s = '@' :: (scope ++ scopedPre ++ t) ∧ scope ≠ [] ∧
        scope.all wordDash = true ∧ pluginTail t = true := by
  cases s with
  | nil =>
    simp [matchScopedL]
  | cons c rest =>
    simp only [matchScopedL, Bool.and_eq_true, decide_eq_true_eq, beq_iff_eq]
    constructor
    · rintro ⟨rfl, ⟨h1, h2⟩, h3⟩
      obtain ⟨t, ht⟩ := (startsWithL_iff _ _).mp h2
      refine ⟨rest.takeWhile wordDash, t, ?_, h1, ?_, ?_⟩
      · rw [List.append_assoc, ← ht, List.takeWhile_append_dropWhile]
      · exact List.all_eq_true.mpr (fun x hx => List.mem_takeWhile_imp hx)
      · rwa [ht, List.drop_left] at h3
    · rintro ⟨scope, t, heq, h1, h2, h3⟩
      injection heq with h4 h5
      subst h4
      have hall : ∀ x ∈ scope, wordDash x = true := List.all_eq_true.mp h2
      have htw : rest.takeWhile wordDash = scope := by
        rw [h5, List.append_assoc, takeWhile_append_all _ _ _ hall, scopedPre_cons,
          List.cons_append, List.takeWhile_cons, if_neg (by decide), List.append_nil]
      have hdw : rest.dropWhile wordDash = scopedPre ++ t := by
        rw [h5, List.append_assoc, dropWhile_append_all _ _ _ hall, scopedPre_cons,
          List.cons_append, List.dropWhile_cons, if_neg (by decide)]
      refine ⟨rfl, ⟨?_, ?_⟩, ?_⟩
      · rw [htw]; exact h1
      · rw [hdw]; exact startsWithL_append _ _
      · rw [hdw, List.drop_left]; exact h3

lemma packageRegex_iff_specGrammar (s : JStr) :
    packageRegexTest s = true ↔ specGrammar s := by
  rw [packageRegexTest, specGrammar]
  simp only [Bool.or_eq_true, decide_eq_true_eq, matchEslint_iff, matchScoped_iff]
  constructor
  · rintro ((h | ⟨scope, t, h1, h2, h3, h4⟩) | h)
    · exact Or.inl h
    · exact Or.inr (Or.inl ⟨scope, t, h1, h2, h3, (pluginTail_iff t).mp h4⟩)
    · exact Or.inr (Or.inr h)
  · rintro (h | ⟨scope, t, h1, h2, h3, h4⟩ | h)
    · exact Or.inl (Or.inl h)
    · exact Or.inl (Or.inr ⟨scope, t, h1, h2, h3, (pluginTail_iff t).mpr h4⟩)
    · exact Or.inr h

lemma specGrammar_no_ws (s : JStr) (h : specGrammar s) :
    ∀ c ∈ s, c.isWhitespace = false := by
  have hpre : ∀ c ∈ eslintPre, c.isWhitespace = false := by decide
  have hsco : ∀ c ∈ scopedPre, c.isWhitespace = false := by decide
  rcases h with ⟨r, rfl, _, hall⟩ | ⟨scope, t, rfl, _, hall, htail⟩ | rfl
  · intro c hc
    rcases List.mem_append.mp hc with h1 | h1
    · exact hpre c h1
    · exact wordDash_not_ws c (List.all_eq_true.mp hall c h1)
  · intro c hc
    rcases List.mem_cons.mp hc with rfl | h1
    · decide
    · rcases List.mem_append.mp h1 with h2 | h2
      · rcases List.mem_append.mp h2 with h3 | h3
        · exact wordDash_not_ws c (List.all_eq_true.mp hall c h3)
        · exact hsco c h3
      · rcases htail with rfl | ⟨name, rfl, _, hname⟩
        · exact absurd h2 (List.not_mem_nil c)
        · rcases List.mem_cons.mp h2 with rfl | h4
          · decide
          · exact wordDash_not_ws c (List.all_eq_true.mp hname c h4)
  · intro c hc
    revert hc
    have : ∀ c ∈ oxPkgL, c.isWhitespace = false := by decide
    exact this c

lemma specGrammar_head (s : JStr) (h : specGrammar s) :
    ∃ c rest, s = c :: rest ∧ (c = 'e' ∨ c = '@') := by
  rcases h with ⟨r, rfl, _, _⟩ | ⟨scope, t, rfl, _, _, _⟩ | rfl
  · rw [eslintPre_cons, List.cons_append]
    exact ⟨'e', _, rfl, Or.inl rfl⟩
  · exact ⟨'@', _, rfl, Or.inr rfl⟩
  · rw [oxPkgL_cons]
    exact ⟨'@', _, rfl, Or.inr rfl⟩

lemma specGrammar_not_pathLike (s : JStr) (h : specGrammar s) : pathLike s = false := by
  obtain ⟨c, rest, rfl, hc⟩ := specGrammar_head s h
  rcases hc with rfl | rfl <;>
    simp [pathLike, startsWithL, show toL "./" = ['.', '/'] from rfl,
      show toL "../" = ['.', '.', '/'] from rfl, show toL "/" = ['/'] from rfl]

lemma specGrammar_no_space (s : JStr) (h : specGrammar s) : hasSpaceL s = false := by
  cases hs : hasSpaceL s
  · rfl
  · exfalso
    obtain ⟨c, hc, hce⟩ := List.any_eq_true.mp hs
    have hcs : c = ' ' := by simpa using hce
    subst hcs
    have := specGrammar_no_ws s h ' ' hc
    exact absurd this (by decide)

lemma specGrammar_trim (s : JStr) (h : specGrammar s) : trimL s = s :=
  trimL_eq_self s (specGrammar_no_ws s h)

lemma installable_str_eq (s : JStr) : installableB (.str s) = packageRegexTest s := by
  cases hg : packageRegexTest s
  · have h3 : ¬(s = oxPkgL) := by
      intro hh
      rw [packageRegexTest, hh] at hg
      simp at hg
    have h1 : matchEslintPluginL s = false := by
      cases hm : matchEslintPluginL s
      · rfl
      · rw [packageRegexTest, hm] at hg; simp at hg
    have h2 : matchScopedL s = false := by
      cases hm : matchScopedL s
      · rfl
      · rw [packageRegexTest, hm] at hg; simp at hg
    rw [installableB, h1, h2, if_neg h3]
    simp
  · have hspec : specGrammar s := (packageRegex_iff_specGrammar s).mp hg
    rw [installableB, specGrammar_no_space s hspec, specGrammar_not_pathLike s hspec]
    simp only [Bool.false_eq_true, if_false]
    have := (by simpa [packageRegexTest] using hg :
      (matchEslintPluginL s = true ∨ matchScopedL s = true) ∨ s = oxPkgL)
    rcases this with (h | h) | h
    · simp [h]
    · cases hm : matchEslintPluginL s <;> simp [h]
    · cases hm : matchEslintPluginL s <;> cases hm2 : matchScopedL s <;> simp [h]

lemma installable_other (i : Nat) : installableB (.other i) = false := rfl

lemma mem_filterInstallable (l : List JSEntry) (e : JSEntry) :
    e ∈ filterInstallable l ↔ (∃ e0 ∈ l, trimEntry e0 = e) ∧ installableB e = true := by
  rw [filterInstallable, List.mem_filter, dedupeFirst, mem_dedupeFirstAux]
  simp [List.mem_map]

lemma nodup_filterInstallable (l : List JSEntry) : (filterInstallable l).Nodup :=
  List.Nodup.filter _ (nodup_dedupeFirstAux [] (l.map trimEntry))

/-! ### Config-parsing lemmas -/

lemma addEntry_eq (set : JSet) (it : JVal) :
    addEntry set it =
      (match specEntryContribution it with
       | some t => jsAdd set t
       | none => set) := by
  cases it with
  | jnull => rfl
  | jbool b => cases b <;> rfl
  | jnum n => exact ite_self set
  | jarr l => rfl
  | jstr s =>
    by_cases hs : s = []
    · subst hs
      rfl
    · rw [addEntry, specEntryContribution, if_neg hs]
      rw [if_neg (by simp [truthy, hs])]
  | jobj f =>
    rw [addEntry, if_neg (by simp [truthy]), specEntryContribution]
    rcases h1 : jlookup f specifierKey with _ | v1
    · rcases h2 : jlookup f nameKey with _ | v2
      · rfl
      · cases v2 <;> rfl
    · cases v1 with
      | jstr s => rfl
      | jnull =>
        rcases h2 : jlookup f nameKey with _ | v2
        · rfl
        · cases v2 <;> rfl
      | jbool b =>
        rcases h2 : jlookup f nameKey with _ | v2
        · rfl
        · cases v2 <;> rfl
      | jnum n =>
        rcases h2 : jlookup f nameKey with _ | v2
        · rfl
        · cases v2 <;> rfl
      | jarr l =>
        rcases h2 : jlookup f nameKey with _ | v2
        · rfl
        · cases v2 <;> rfl
      | jobj g =>
        rcases h2 : jlookup f nameKey with _ | v2
        · rfl
        · cases v2 <;> rfl

lemma readConfig_eq (env : Env) (p : JStr) (set : JSet) :
    readConfigAndCollect env p set = (jsPluginsArr (env.fsys p)).foldl addEntry set := by
  rw [readConfigAndCollect, jsPluginsArr.eq_def]
  cases h : env.fsys p with
  | none => rfl
  | some o =>
    cases o with
    | none => rfl
    | some v => cases v <;> rfl

lemma mem_foldl_addEntry (l : List JVal) (set : JSet) (s : JStr) :
    s ∈ l.foldl addEntry set ↔
      s ∈ set ∨ ∃ it ∈ l, specEntryContribution it = some s := by
  induction l generalizing set with
  | nil => simp
  | cons a as ih =>
    rw [List.foldl_cons, ih, addEntry_eq]
    cases h : specEntryContribution a with
    | none =>
      constructor
      · rintro (h1 | ⟨it, hit, hc⟩)
        · exact Or.inl h1
        · exact Or.inr ⟨it, List.mem_cons_of_mem a hit, hc⟩
      · rintro (h1 | ⟨it, hit, hc⟩)
        · exact Or.inl h1
        · rcases List.mem_cons.mp hit with rfl | h2
          · rw [h] at hc
            exact absurd hc (by simp)
          · exact Or.inr ⟨it, h2, hc⟩
    | some t =>
      rw [jsAdd_mem]
      constructor
      · rintro ((h1 | rfl) | ⟨it, hit, hc⟩)
        · exact Or.inl h1
        · exact Or.inr ⟨a, List.mem_cons_self a as, by rw [h]⟩
        · exact Or.inr ⟨it, List.mem_cons_of_mem a hit, hc⟩
      · rintro (h1 | ⟨it, hit, hc⟩)
        · exact Or.inl (Or.inl h1)
        · rcases List.mem_cons.mp hit with rfl | h2
          · rw [h] at hc
            injection hc with hc2
            exact Or.inl (Or.inr hc2.symm)
          · exact Or.inr ⟨it, h2, hc⟩

/-! ### Installer lemmas -/

lemma fallbackStage_merge (w : World) (tmp : List (JStr × JStr))
    (h5 : w.fallbackRes.err = none)
    (h6 : w.fallbackRes.status = some 0)
    (h7 : w.tmpTree = some tmp)
    (h8 : w.cpFail = none) :
    fallbackStage w =
      ([Effect.mkdirDest, Effect.copyTree, Effect.removeTmp], .ok,
        mergeNoOverwrite w.destFiles tmp) := by
  rw [fallbackStage, h5, h6, h7, h8]
  simp

lemma installPackages_fallback (w : World) (pkgs : List JStr)
    (h0 : pkgs ≠ [])
    (h1 : pkgs.filter (fun p => !packageRegexTest p) = [])
    (h3 : errFatalB w.primary = false)
    (h4 : fallbackCondB w.primary = true) :
    installPackages w pkgs =
      ⟨([Effect.spawn (installArgs pkgs)] ++ [Effect.mkdtemp] ++
          pkgs.map (fun p => Effect.spawn (viewArgs p)) ++
          [Effect.spawn (fallbackArgs (dedupeFirst (pkgs ++ collectPeerDepsSync w pkgs)))]) ++
        (fallbackStage w).1,
        (fallbackStage w).2.1, (fallbackStage w).2.2⟩ := by
  rw [installPackages, if_neg h0, if_neg (by simp [h1]), if_neg (by simp [h3]), if_pos h4]

/-! ### Claim theorems -/

/-- Claim C1: for every input collection, `filterInstallable` returns exactly
those trimmed entries that satisfy the allowlist grammar (`eslint-plugin-<name>`
with name of word characters and dashes, `@<scope>/eslint-plugin` optionally
followed by `-<name>`, or the literal `@oxlint/plugins`); non-string entries,
entries containing whitespace, and entries beginning with `./`, `../` or `/`
are excluded; and each accepted trimmed string appears exactly once in the
output even when the input contains duplicates or whitespace variants. -/
theorem C1_filterInstallable_exact (l : List JSEntry) :
    (∀ s : JStr, JSEntry.str s ∈ filterInstallable l ↔
      ((∃ e ∈ l, trimEntry e = JSEntry.str s) ∧ specGrammar s))
    ∧ (∀ i : Nat, JSEntry.other i ∉ filterInstallable l)
    ∧ (∀ s : JStr, (∃ c ∈ s, c.isWhitespace = true) → JSEntry.str s ∉ filterInstallable l)
    ∧ (∀ s : JStr, pathLike s = true → JSEntry.str s ∉ filterInstallable l)
    ∧ (∀ e : JSEntry, (filterInstallable l).count e ≤ 1) := by
  refine ⟨?_, ?_, ?_, ?_, ?_⟩
  · intro s
    rw [mem_filterInstallable, installable_str_eq, packageRegex_iff_specGrammar]
  · intro i hmem
    exact absurd ((mem_filterInstallable l _).mp hmem).2 (by simp [installableB])
  · intro s hws hmem
    obtain ⟨c, hc, hcw⟩ := hws
    have h2 := ((mem_filterInstallable l _).mp hmem).2
    rw [installable_str_eq, packageRegex_iff_specGrammar] at h2
    rw [specGrammar_no_ws s h2 c hc] at hcw
    cases hcw
  · intro s hp hmem
    have h2 := ((mem_filterInstallable l _).mp hmem).2
    rw [installable_str_eq, packageRegex_iff_specGrammar] at h2
    rw [specGrammar_not_pathLike s h2] at hp
    cases hp
  · exact List.nodup_iff_count_le_one.mp (nodup_filterInstallable l)

/-- Witness for C1 on `sampleEntries`: the trimmed plugin is accepted (once),
while the non-string, a whitespace-containing string, and the relative path
are excluded. -/
theorem C1_witness :
    JSEntry.str (toL "eslint-plugin-x") ∈ filterInstallable sampleEntries
    ∧ JSEntry.other 0 ∉ filterInstallable sampleEntries
    ∧ JSEntry.str (toL "a b") ∉ filterInstallable sampleEntries
    ∧ JSEntry.str (toL "./a") ∉ filterInstallable sampleEntries
    ∧ (filterInstallable sampleEntries).count (JSEntry.str (toL "eslint-plugin-x")) ≤ 1 :=
  ⟨((C1_filterInstallable_exact sampleEntries).1 _).mpr
      ⟨⟨JSEntry.str (toL " eslint-plugin-x "), by decide, by decide⟩,
        Or.inl ⟨toL "x", rfl, by decide, by decide⟩⟩,
    (C1_filterInstallable_exact sampleEntries).2.1 0,
    (C1_filterInstallable_exact sampleEntries).2.2.1 _ ⟨' ', by decide, by decide⟩,
    (C1_filterInstallable_exact sampleEntries).2.2.2.1 _ (by decide),
    (C1_filterInstallable_exact sampleEntries).2.2.2.2 _⟩

/-- Claim C2: for every nonempty package list with at least one entry failing
`PACKAGE_REGEX`, `installPackages` throws an error listing every offending
entry before any subprocess is started (empty effect trace) and leaves the
filesystem unchanged; and every entry outside the spec grammar is among the
listed offenders. -/
theorem C2_installPackages_rejects (w : World) (pkgs : List JStr)
    (hne : pkgs ≠ [])
    (hbad : pkgs.filter (fun p => !packageRegexTest p) ≠ []) :
    installPackages w pkgs =
      ⟨[], .err (refuseMsg (pkgs.filter (fun p => !packageRegexTest p))), w.destFiles⟩
    ∧ (∀ p ∈ pkgs, ¬ specGrammar p → p ∈ pkgs.filter (fun p => !packageRegexTest p)) := by
  constructor
  · rw [installPackages, if_neg hne, if_pos hbad]
  · intro p hp hns
    rw [List.mem_filter]
    refine ⟨hp, ?_⟩
    cases hr : packageRegexTest p
    · simp
    · exact absurd ((packageRegex_iff_specGrammar p).mp hr) hns

/-- Witness for C2: a batch holding `lodash` and a valid plugin is rejected
whole, with an empty trace and the filesystem untouched. -/
theorem C2_witness :
    installPackages wAny [toL "lodash", toL "eslint-plugin-a"] =
      ⟨[], .err (refuseMsg ([toL "lodash", toL "eslint-plugin-a"].filter
        (fun p => !packageRegexTest p))), wAny.destFiles⟩ :=
  (C2_installPackages_rejects wAny _ (by decide) (by decide)).1

/-- Counterexample for C3: with the command `echo skip` (which contains the
standalone word `skip`) and an existing default config `.oxlintrc.json`
declaring `eslint-plugin-x`, the pipeline still produces a nonempty install
plan, contradicting the claim that it is empty regardless of which config
files exist. -/
theorem C3_counterexample :
    hasWordSkip (toL "echo skip") = true
    ∧ resolvePlan env3 (toL "echo skip") = [JSEntry.str (toL "eslint-plugin-x")] := by
  exact ⟨by decide, by decide⟩

/-- Claim C3 (amended): for every command containing the standalone word
`skip`, `collectFromCommand` contributes nothing, so the plan equals what the
default-config fallback (plus the local-plugin pass and the filter) yields —
independent of any `-c`/`--config` flags — and the plan is empty whenever no
default config file exists in the working directory. -/
theorem C3_skip_amended (env : Env) (cmd : JStr) (h : hasWordSkip cmd = true) :
    resolvePlan env cmd =
      filterInstallable ((collectFromLocalPlugins (collectDefaultIfEmpty env [])).map JSEntry.str)
    ∧ (env.fsys (env.joinCwd (toL ".oxlintrc.json")) = none → resolvePlan env cmd = []) := by
  have hcc : collectFromCommand env cmd [] = [] := by
    by_cases hc : cmd = []
    · rw [collectFromCommand, if_pos hc]
    · rw [collectFromCommand, if_neg hc, if_pos h]
  constructor
  · rw [resolvePlan, hcc]
  · intro hf
    rw [resolvePlan, hcc]
    have hd : collectDefaultIfEmpty env [] = [] := by
      rw [collectDefaultIfEmpty, if_neg (by simp), DEFAULT_CONFIG_FILES, defaultLoop, hf]
      rw [defaultLoop]
      simp
    rw [hd]
    rfl

/-- Witness for C3 (amended): in an empty working directory, a `skip` command
yields the empty plan. -/
theorem C3_witness : resolvePlan envEmpty (toL "echo skip") = [] :=
  (C3_skip_amended envEmpty (toL "echo skip") (by decide)).2 rfl

/-- Counterexample for C4: an absolute path in the raw set is rejected, but
`collectFromLocalPlugins` only reacts to `./` and `../`, so `@oxlint/plugins`
is NOT added for it, contradicting the claim's "at least one such path
entry". -/
theorem C4_counterexample :
    pathLike (toL "/abs/plugin.js") = true
    ∧ finalOf [toL "/abs/plugin.js"] = []
    ∧ (finalOf [toL "/abs/plugin.js"]).count (JSEntry.str oxPkgL) = 0 := by
  exact ⟨by decide, by decide, by decide⟩

/-- Claim C4 (amended): every path entry (`./`, `../` or `/`-rooted) is absent
from the final plan, and whenever at least one relative (`./` or `../`) path
entry was present in the raw set, `@oxlint/plugins` appears in the final plan
exactly once. -/
theorem C4_local_plugins_amended (raw : JSet) :
    (∀ s : JStr, pathLike s = true → JSEntry.str s ∉ finalOf raw)
    ∧ ((∃ s ∈ raw, isRelPath s = true) →
        (finalOf raw).count (JSEntry.str oxPkgL) = 1) := by
  constructor
  · intro s hp hmem
    have h2 := ((mem_filterInstallable _ _).mp hmem).2
    rw [installable_str_eq, packageRegex_iff_specGrammar] at h2
    rw [specGrammar_not_pathLike s h2] at hp
    cases hp
  · intro hex
    have hany : raw.any isRelPath = true := List.any_eq_true.mpr hex
    have hcol : collectFromLocalPlugins raw = jsAdd raw oxPkgL := by
      rw [collectFromLocalPlugins, if_pos hany]
    rw [finalOf, hcol]
    refine List.count_eq_one_of_mem (nodup_filterInstallable _) ?_
    rw [mem_filterInstallable]
    refine ⟨⟨JSEntry.str oxPkgL, ?_, by decide⟩, by decide⟩
    exact List.mem_map_of_mem _ ((jsAdd_mem raw oxPkgL oxPkgL).mpr (Or.inr rfl))

/-- Witness for C4 (amended): with a single relative-path raw entry, the path
itself is excluded and `@oxlint/plugins` appears exactly once. -/
theorem C4_witness :
    JSEntry.str (toL "/x") ∉ finalOf [toL "./local-plugin.js"]
    ∧ (finalOf [toL "./local-plugin.js"]).count (JSEntry.str oxPkgL) = 1 :=
  ⟨(C4_local_plugins_amended _).1 (toL "/x") (by decide),
    (C4_local_plugins_amended _).2 ⟨toL "./local-plugin.js", by decide, by decide⟩⟩

/-- Claim C5 (code bug): the flag-argument regex class `[^\s'"]+` cannot span
a space, so for `oxlint --config "my config.json"` nothing matches and the
file is never read — even though it exists (with a declared plugin) at the
resolved path — contradicting the specified verbatim extraction.  The whole
pipeline likewise collects nothing from the command. -/
theorem C5_space_config_bug :
    env5.fsys (env5.resolve (toL "my config.json")) = some (some cfgX)
    ∧ collectFromCommand env5 (toL "oxlint --config \"my config.json\"") [] = []
    ∧ resolvePlan env5 (toL "oxlint --config \"my config.json\"") = [] := by
  exact ⟨rfl, by decide, by decide⟩

/-- Claim C6 (code bug): a primary attempt that fails to launch with the
workspace-protocol error `EUNSUPPORTEDPROTOCOL` is workspace-related (the code
even logs that it will retry), yet because no output was captured the
output-signature test fails and `installPackages` throws
`npm install failed with code null` without attempting the fallback. -/
theorem C6_launch_error_bug :
    workspaceErrB { code := some (toL "EUNSUPPORTEDPROTOCOL"),
                    msg := toL "spawnSync npm EUNSUPPORTEDPROTOCOL" } = true
    ∧ installPackages w6 [toL "eslint-plugin-a"] =
        ⟨[Effect.spawn (installArgs [toL "eslint-plugin-a"])],
          .err (toL "npm install failed with code null"), []⟩ := by
  exact ⟨by decide, by decide⟩

/-- Counterexample for C7: when the merge copy (`cpSync`) throws, the error
propagates and `rmSync` is never reached, so the temporary directory is NOT
removed — the cleanup is not unconditional. -/
theorem C7_counterexample :
    (installPackages w7 [toL "eslint-plugin-a"]).outcome =
      .err (toL "EACCES: permission denied")
    ∧ Effect.copyTree ∈ (installPackages w7 [toL "eslint-plugin-a"]).trace
    ∧ Effect.removeTmp ∉ (installPackages w7 [toL "eslint-plugin-a"]).trace := by
  exact ⟨by decide, by decide, by decide⟩

/-- Claim C7 (amended): when the fallback merge step runs and the copy does
not raise, every file present under the target `node_modules` before the merge
keeps its content (first-writer-wins), and the temporary directory is removed;
when the copy raises, the error propagates and the temporary directory is not
removed (see the counterexample). -/
theorem C7_merge_amended (w : World) (pkgs : List JStr) (tmp : List (JStr × JStr))
    (h0 : pkgs ≠ [])
    (h1 : pkgs.filter (fun p => !packageRegexTest p) = [])
    (h3 : errFatalB w.primary = false)
    (h4 : fallbackCondB w.primary = true)
    (h5 : w.fallbackRes.err = none)
    (h6 : w.fallbackRes.status = some 0)
    (h7 : w.tmpTree = some tmp)
    (h8 : w.cpFail = none) :
    (∀ f c, lookupJ f w.destFiles = some c →
      lookupJ f (installPackages w pkgs).destAfter = some c)
    ∧ Effect.removeTmp ∈ (installPackages w pkgs).trace := by
  rw [installPackages_fallback w pkgs h0 h1 h3 h4, fallbackStage_merge w tmp h5 h6 h7 h8]
  constructor
  · intro f c h
    exact lookupJ_append_some f _ _ c h
  · simp

/-- Witness for C7 (amended): a successful merge keeps the pre-existing
`left-pad/index.js` content although the temporary tree also provides that
path, and the cleanup effect is present. -/
theorem C7_witness :
    lookupJ (toL "left-pad/index.js")
      (installPackages w7ok [toL "eslint-plugin-a"]).destAfter = some (toL "orig")
    ∧ Effect.removeTmp ∈ (installPackages w7ok [toL "eslint-plugin-a"]).trace :=
  ⟨(C7_merge_amended w7ok [toL "eslint-plugin-a"] _
      (by decide) (by decide) (by decide) (by decide) rfl rfl rfl rfl).1
      (toL "left-pad/index.js") (toL "orig") (by decide),
    (C7_merge_amended w7ok [toL "eslint-plugin-a"] _
      (by decide) (by decide) (by decide) (by decide) rfl rfl rfl rfl).2⟩

/-- Counterexample for C8: a `jsPlugins` array holding the empty-string entry
`""` — a string entry, whose trimmed form the claim says is added — contributes
nothing, because the loop skips falsy entries. -/
theorem C8_counterexample :
    env8.fsys (toL "cfg.json") =
      some (some (JVal.jobj [(jsPluginsKey, JVal.jarr [JVal.jstr []])]))
    ∧ readConfigAndCollect env8 (toL "cfg.json") [] = []
    ∧ trimL [] ∉ readConfigAndCollect env8 (toL "cfg.json") [] := by
  exact ⟨rfl, by decide, by decide⟩

/-- Claim C8 (amended): `readConfigAndCollect` is total (never raises); a
missing file, an unparseable file, or one without an array-valued `jsPlugins`
key leaves the set unchanged; otherwise the result holds exactly the previous
members plus the per-entry contributions (trimmed truthy string entries, and
trimmed string `specifier`-else-`name` fields of object entries; every other
shape — including the falsy empty-string entry — is ignored). -/
theorem C8_readConfig_amended (env : Env) (p : JStr) (set : JSet) :
    (env.fsys p = none → readConfigAndCollect env p set = set)
    ∧ (env.fsys p = some none → readConfigAndCollect env p set = set)
    ∧ (jsPluginsArr (env.fsys p) = [] → readConfigAndCollect env p set = set)
    ∧ (∀ s : JStr, s ∈ readConfigAndCollect env p set ↔
        s ∈ set ∨ ∃ it ∈ jsPluginsArr (env.fsys p), specEntryContribution it = some s) := by
  refine ⟨?_, ?_, ?_, ?_⟩
  · intro h
    rw [readConfig_eq, h]
    rfl
  · intro h
    rw [readConfig_eq, h]
    rfl
  · intro h
    rw [readConfig_eq, h]
    rfl
  · intro s
    rw [readConfig_eq, mem_foldl_addEntry]

/-- Witness for C8 (amended): the padded string entry of `cfgWarr` contributes
its trimmed form, and a missing file leaves the set unchanged. -/
theorem C8_witness :
    toL "eslint-plugin-a" ∈ readConfigAndCollect env8b (toL "cfg.json") []
    ∧ readConfigAndCollect envEmpty (toL "whatever.json") [toL "seed"] = [toL "seed"] :=
  ⟨((C8_readConfig_amended env8b (toL "cfg.json") []).2.2.2 (toL "eslint-plugin-a")).mpr
      (Or.inr ⟨JVal.jstr (toL " eslint-plugin-a "),
        by exact List.mem_cons_self _ _, by decide⟩),
    (C8_readConfig_amended envEmpty (toL "whatever.json") [toL "seed"]).1 rfl⟩

/-- Claim C9: `filterInstallable` is idempotent — applying it to its own
output returns that output unchanged. -/
theorem C9_filterInstallable_idempotent (l : List JSEntry) :
    filterInstallable (filterInstallable l) = filterInstallable l := by
  set L := filterInstallable l with hL
  have h1 : ∀ e ∈ L, installableB e = true := fun e he => (List.mem_filter.mp he).2
  have h2 : L.Nodup := nodup_filterInstallable l
  have h3 : ∀ e ∈ L, trimEntry e = e := by
    intro e he
    cases e with
    | other i => exact absurd (h1 _ he) (by simp [installableB])
    | str s =>
      have hi := h1 _ he
      rw [installable_str_eq] at hi
      rw [trimEntry, specGrammar_trim s ((packageRegex_iff_specGrammar s).mp hi)]
  have hmap : L.map trimEntry = L := by
    rw [List.map_congr_left h3]
    simp
  rw [filterInstallable, hmap, dedupeFirst_eq_self L h2, List.filter_eq_self.mpr h1]

/-- Claim C10: under the fallback conditions, the list handed to the isolated
temporary-directory install is exactly the first-occurrence deduplication of
the requested packages followed by every collected peer-dependency name, and
every collected peer name — validated or not — is in that list. -/
theorem C10_fallback_install_list (w : World) (pkgs : List JStr)
    (h0 : pkgs ≠ [])
    (h1 : pkgs.filter (fun p => !packageRegexTest p) = [])
    (h3 : errFatalB w.primary = false)
    (h4 : fallbackCondB w.primary = true) :
    Effect.spawn (fallbackArgs (dedupeFirst (pkgs ++ collectPeerDepsSync w pkgs)))
      ∈ (installPackages w pkgs).trace
    ∧ ∀ q ∈ collectPeerDepsSync w pkgs,
        q ∈ dedupeFirst (pkgs ++ collectPeerDepsSync w pkgs) := by
  rw [installPackages_fallback w pkgs h0 h1 h3 h4]
  constructor
  · simp
  · intro q hq
    exact (mem_dedupeFirst _ _).mpr (List.mem_append_right pkgs hq)

/-- Witness for C10: the registry-supplied peer name `lodash` fails
`PACKAGE_REGEX`, yet it is part of the fallback install list that is spawned. -/
theorem C10_witness :
    Effect.spawn (fallbackArgs (dedupeFirst ([toL "eslint-plugin-a"] ++
        collectPeerDepsSync w10 [toL "eslint-plugin-a"])))
      ∈ (installPackages w10 [toL "eslint-plugin-a"]).trace
    ∧ toL "lodash" ∈ dedupeFirst ([toL "eslint-plugin-a"] ++
        collectPeerDepsSync w10 [toL "eslint-plugin-a"])
    ∧ packageRegexTest (toL "lodash") = false :=
  ⟨(C10_fallback_install_list w10 _ (by decide) (by decide) (by decide) (by decide)).1,
    (C10_fallback_install_list w10 _ (by decide) (by decide) (by decide) (by decide)).2
      (toL "lodash") (by decide),
    by decide⟩

end Oxci
